import Mathlib

/-!
Verification of the LPD8806 LED-strip driver (`LPD8806.py`): a shallow
embedding of the pixel buffer, gamma encoding, channel reordering,
transmission traces and the stateful animation steps, with theorems about
each specified behaviour.

Python numeric values are modelled as exact rationals (every arithmetic
operation appearing on the verified paths is exact in binary floating
point or has been checked to agree with exact arithmetic), Python lists as
Lean lists with Python's signed indexing (one negative wrap), and raised
exceptions as an error value carried next to the state reached when the
exception was raised.
-/

set_option allowUnsafeReducibility true
attribute [local semireducible] Rat.mul Rat.inv Rat.add Rat.sub

set_option maxRecDepth 8000

deriving instance DecidableEq for Except

namespace LPD8806

/-- Exceptions surfaced by the library paths modelled here. -/
inductive PyErr where
  | valueError : PyErr
  | indexError : PyErr
  | zeroDivisionError : PyErr
deriving DecidableEq

/-- Python sequence index resolution for a sequence of length `len`: a
negative index wraps once past the length; the result is the physical
position, or `none` when the index is out of range. -/
def pyIdx (len : Nat) (k : Int) : Option Nat :=
  let j : Int := if k < 0 then k + len else k
  if 0 ≤ j ∧ j < len then some j.toNat else none

/-- Python list read `xs[k]`: out-of-range indices raise `IndexError`. -/
def pyGet {α : Type} (xs : List α) (k : Int) : Except PyErr α :=
  match pyIdx xs.length k with
  | some i =>
    match xs[i]? with
    | some a => .ok a
    | none => .error .indexError
  | none => .error .indexError

/-- Python list element assignment `xs[k] = a`, same indexing rule as `pyGet`. -/
def pySet {α : Type} (xs : List α) (k : Int) (a : α) : Except PyErr (List α) :=
  match pyIdx xs.length k with
  | some i => .ok (xs.set i a)
  | none => .error .indexError

/-- Python `int()` applied to a rational: truncation toward zero. -/
def pyInt (q : ℚ) : Int := q.num.tdiv q.den

/-- Integer square root by upward linear search: starting from `m` with
`m² ≤ n`, the first value whose successor squares past `n`. -/
def isqrtAux (n : Nat) : Nat → Nat → Nat
  | 0, m => m
  | f + 1, m => if (m + 1) * (m + 1) ≤ n then isqrtAux n f (m + 1) else m

/-- `⌊√n⌋`, computed by `isqrtAux` with fuel `n` (always sufficient). -/
def isqrtLe (n : Nat) : Nat := isqrtAux n n 0

/-- Gamma table entry, from `LEDStrip.__init__`:
`self.gamma[i] = 0x80 | int(pow(float(i) / 255.0, 2.5) * 127.0 + 0.5)`.
The low seven bits are `⌊127·(i/255)^{5/2} + 1/2⌋` computed exactly as
`(⌊√(4·127²·i⁵/255⁵)⌋ + 1) / 2`; the agreement with this real-number
expression is proved below. -/
def gammaByte (i : Nat) : Nat :=
  0x80 ||| ((isqrtLe (64516 * i ^ 5 / 255 ^ 5) + 1) / 2)

/-- Lookup `self.gamma[k]`, a 256-byte Python bytearray: negative indices
wrap once, anything else out of range raises `IndexError`. -/
def gammaAt (k : Int) : Except PyErr Nat :=
  let j : Int := if k < 0 then k + 256 else k
  if 0 ≤ j ∧ j < 256 then .ok (gammaByte j.toNat) else .error .indexError

/-- The color value stored by `Color.__init__` after validation:
channels scaled by the constructor's brightness. -/
structure Color where
  R : ℚ
  G : ℚ
  B : ℚ
deriving DecidableEq

/-- `Color.__init__`: validates the RGB range and the brightness range,
then stores the scaled channels. -/
def Color.build (r g b bright : ℚ) : Except PyErr Color :=
  if r > 255 ∨ r < 0 ∨ g > 255 ∨ g < 0 ∨ b > 255 ∨ b < 0 then .error .valueError
  else if bright > 1 ∨ bright < 0 then .error .valueError
  else .ok ⟨r * bright, g * bright, b * bright⟩

/-- `ChannelOrder.RGB`. -/
def ChannelOrder.RGB : List Nat := [0, 1, 2]

/-- `ChannelOrder.GRB` (the default). -/
def ChannelOrder.GRB : List Nat := [1, 0, 2]

/-- `ChannelOrder.BRG`. -/
def ChannelOrder.BRG : List Nat := [1, 2, 0]

/-- The mutable state of a `LEDStrip` instance (the fields the modelled
paths read or write). -/
structure Strip where
  c_order : List Nat
  num_leds : Nat
  latch_bytes : Nat
  buffer : List (List Nat)
  masterBrightness : ℚ
  rainbowStep : Int
  rainbowCycleStep : Int
  wipeStep : Int
  chaseStep : Int
  larsonStep : Int
  larsonDir : Int
  larsonLast : Int
  waveStep : Int
deriving DecidableEq

/-- Result of a mutating call: the state when the call returned or raised,
plus the exception if one was raised. -/
abbrev MRes := Strip × Option PyErr

/-- Sequencing of mutating calls: a raised exception aborts the rest but
keeps the state already reached. -/
def mstep (r : MRes) (f : Strip → MRes) : MRes :=
  match r with
  | (s, none) => f s
  | (s, some e) => (s, some e)

/-- A value accepted by `__setitem__`: a `Color` object or a numeric tuple. -/
inductive PixelInput where
  | color (c : Color)
  | triple (v : List ℚ)

/-- Normalization done by `__setitem__`: `Color` inputs are replaced by
`value.getRGB()`. -/
def inputVals : PixelInput → List ℚ
  | .color c => [c.R, c.G, c.B]
  | .triple v => v

/-- The write loop of `__setitem__` with an integer key:
`for dest, val in zip(self.c_order, value): self.buffer[key][dest] =
self.gamma[int(val * self.masterBrightness)]`. -/
def writeChannels (s : Strip) (key : Int) : List (Nat × ℚ) → MRes
  | [] => (s, none)
  | (dest, val) :: rest =>
    match gammaAt (pyInt (val * s.masterBrightness)) with
    | .error e => (s, some e)
    | .ok g =>
      match pyGet s.buffer key with
      | .error e => (s, some e)
      | .ok row =>
        match pySet row (dest : Int) g with
        | .error e => (s, some e)
        | .ok row' =>
          match pySet s.buffer key row' with
          | .error e => (s, some e)
          | .ok buf' => writeChannels { s with buffer := buf' } key rest

/-- `LEDStrip.__setitem__` with an integer key. -/
def setItemInt (s : Strip) (key : Int) (value : PixelInput) : MRes :=
  let v := inputVals value
  if v.length ≠ 3 then (s, some .valueError)
  else writeChannels s key (s.c_order.zip v)

/-- The `while i < stop` loop of `__setitem__` with a slice key: each pass
pops the next value (empty list raises `IndexError`), checks its arity,
writes it through the integer-key path and advances by `step`. -/
def setItemSliceAux (stop step : Int) : Strip → Int → List PixelInput → MRes
  | s, i, values =>
    if i < stop then
      match values with
      | [] => (s, some .indexError)
      | v :: rest =>
        if (inputVals v).length ≠ 3 then (s, some .valueError)
        else
          match setItemInt s i v with
          | (s', none) => setItemSliceAux stop step s' (i + step) rest
          | (s', some e) => (s', some e)
    else (s, none)

/-- `LEDStrip.__setitem__` with a slice key `start:stop:step`; a falsy
(`None` or `0`) stop falls back to `num_leds`, a falsy step to `1`. -/
def setItemSlice (s : Strip) (start : Int) (stop? step? : Option Int)
    (values : List PixelInput) : MRes :=
  let stop : Int := match stop? with
    | none => (s.num_leds : Int)
    | some v => if v = 0 then (s.num_leds : Int) else v
  let step : Int := match step? with
    | none => 1
    | some v => if v = 0 then 1 else v
  setItemSliceAux stop step s start values

/-- `LEDStrip.__getitem__`: the raw 3-byte record at `key`. -/
def getItem (s : Strip) (key : Int) : Except PyErr (List Nat) :=
  pyGet s.buffer key

/-- `LEDStrip.__init__` state just before the initial clearing write:
GRB order, `latch_bytes = int((num_leds + 31) / 32)`, `num_leds` zeroed
3-byte records, master brightness 1, all animation cursors at their
initial values. -/
def stripPre (n : Nat) : Strip where
  c_order := ChannelOrder.GRB
  num_leds := n
  latch_bytes := (n + 31) / 32
  buffer := List.replicate n (List.replicate 3 0)
  masterBrightness := 1
  rainbowStep := 0
  rainbowCycleStep := 0
  wipeStep := 0
  chaseStep := 0
  larsonStep := 0
  larsonDir := -1
  larsonLast := 0
  waveStep := 0

/-- `LEDStrip.__init__` up to the end of the constructor: performs
`self[0:] = [[0,0,0]] * self.num_leds`. -/
def mkStrip (n : Nat) : MRes :=
  setItemSlice (stripPre n) 0 none none
    (List.replicate n (.triple [0, 0, 0]))

/-- The bytes `_latch` writes to the sink: `self.latch_bytes` zeros. -/
def latchTrace (s : Strip) : List Nat := List.replicate s.latch_bytes 0

/-- The bytes `update` writes to the sink: each buffer entry in order,
then the latch bytes. -/
def updateTrace (s : Strip) : List Nat :=
  (s.buffer.foldl (fun acc entry => acc ++ entry) []) ++ latchTrace s

/-- `setChannelOrder`. -/
def setChannelOrder (s : Strip) (order : List Nat) : Strip :=
  { s with c_order := order }

/-- `setMasterBrightness`, with its range validation. -/
def setMasterBrightness (s : Strip) (bright : ℚ) : MRes :=
  if bright > 1 ∨ bright < 0 then (s, some .valueError)
  else ({ s with masterBrightness := bright }, none)

/-- `fill(color, start, end)`: `self[start:end] = [color] * (end - start)`
with a `None` end replaced by `num_leds`. -/
def fill (s : Strip) (c : Color) (start : Int) (end? : Option Int) : MRes :=
  let e : Int := match end? with
    | none => (s.num_leds : Int)
    | some v => v
  setItemSlice s start (some e) none (List.replicate (e - start).toNat (.color c))

/-- A caller-side `strip.fill(Color(r, g, b, bright), start, end)`: the
color is validated first; a constructor failure surfaces before any
buffer access. -/
def fillColor (s : Strip) (r g b bright : ℚ) (start : Int) (end? : Option Int) : MRes :=
  match Color.build r g b bright with
  | .error e => (s, some e)
  | .ok c => fill s c start end?

/-- `set(pixel, color)`. -/
def setPix (s : Strip) (pixel : Int) (c : Color) : MRes :=
  setItemInt s pixel (.color c)

/-- `setRGB(pixel, r, g, b)`. -/
def setRGB (s : Strip) (pixel : Int) (r g b : ℚ) : MRes :=
  setItemInt s pixel (.triple [r, g, b])

/-- `setOff(pixel)`: `self[pixel] = (0, 0, 0)`. -/
def setOff (s : Strip) (pixel : Int) : MRes :=
  setItemInt s pixel (.triple [0, 0, 0])

/-- `wheel_color(wheelpos)`: clamp to `[0, 384]`, pick the three-segment
rainbow channel values, build `Color(r, g, b)`. -/
def wheel_color (w : Int) : Except PyErr Color :=
  let w1 : Int := if w < 0 then 0 else w
  let w2 : Int := if w1 > 384 then 384 else w1
  if w2 < 128 then
    Color.build ((127 - w2 % 128 : Int) : ℚ) ((w2 % 128 : Int) : ℚ) 0 1
  else if w2 < 256 then
    Color.build 0 ((127 - w2 % 128 : Int) : ℚ) ((w2 % 128 : Int) : ℚ) 1
  else
    Color.build ((w2 % 128 : Int) : ℚ) 0 ((127 - w2 % 128 : Int) : ℚ) 1

/-- `anim_color_chase(color, start, end)`. -/
def animColorChase (s : Strip) (color : Color) (start end0 : Int) : MRes :=
  let e : Int := if end0 = 0 ∨ end0 > (s.num_leds : Int) then (s.num_leds : Int) else end0
  let r1 := if s.chaseStep = 0 then setOff s (e - 1) else setOff s (start + s.chaseStep)
  mstep r1 fun s1 =>
  mstep (setPix s1 (start + s.chaseStep) color) fun s2 =>
  let s3 := { s2 with chaseStep := s.chaseStep + 1 }
  (if start + s3.chaseStep ≥ e then { s3 with chaseStep := 0 } else s3, none)

/-- One faded write of the larson tail:
`self.setRGB(p, color.R * level, color.G * level, color.B * level)` with
`level = (float(tail - d) / float(tail)) * fade`; float division by zero
raises `ZeroDivisionError`. -/
def larsonFadeAt (color : Color) (tail : Int) (fade : ℚ) (s : Strip)
    (p : Int) (d : Nat) : MRes :=
  if tail = 0 then (s, some .zeroDivisionError)
  else
    let level : ℚ := (((tail - (d : Int) : Int) : ℚ) / (tail : ℚ)) * fade
    setRGB s p (color.R * level) (color.G * level) (color.B * level)

/-- The `for l in range(0, tl)` fade loop, moving away from the lit pixel
in direction `dir`. -/
def larsonLoop (color : Color) (tail : Int) (fade : ℚ) (ll dir : Int) :
    Strip → List Nat → MRes
  | s, [] => (s, none)
  | s, d :: rest =>
    mstep (larsonFadeAt color tail fade s (ll + dir * (d : Int)) d) fun s' =>
      larsonLoop color tail fade ll dir s' rest

/-- `anim_larson_scanner(color, tail, fade, start, end)`. -/
def animLarsonScanner (s : Strip) (color : Color) (tail0 : Int) (fade : ℚ)
    (start end0 : Int) : MRes :=
  let e : Int := if end0 = 0 ∨ end0 > (s.num_leds : Int) then (s.num_leds : Int) else end0
  let size : Int := e - start
  let tail1 : Int := tail0 + 1
  let tail : Int := if tail1 ≥ size / 2 then size / 2 - 1 else tail1
  let ll : Int := start + s.larsonStep
  let s0 : Strip := { s with larsonLast := ll }
  mstep (setPix s0 ll color) fun s1 =>
  let tl : Int := if ll + tail ≥ e then e - ll else tail
  let tr : Int := if ll - tail < start then ll - start else tail
  mstep (larsonLoop color tail fade ll 1 s1 (List.range tl.toNat)) fun s2 =>
  mstep (if ll + tl ≤ e then setOff s2 (ll + tl) else (s2, none)) fun s3 =>
  mstep (larsonLoop color tail fade ll (-1) s3 (List.range tr.toNat)) fun s4 =>
  mstep (if ll - tr ≥ start then setOff s4 (ll - tr - 1) else (s4, none)) fun s5 =>
  let dir' : Int :=
    if start + s.larsonStep = e then -s5.larsonDir
    else if s.larsonStep = 0 then -s5.larsonDir
    else s5.larsonDir
  ({ s5 with larsonDir := dir', larsonStep := s.larsonStep + dir' }, none)

/-- Two consecutive `anim_color_chase(Color(255,0,0))` steps on a fresh
3-pixel strip. -/
def chaseTwice : MRes :=
  mstep (mstep (mkStrip 3) fun s => animColorChase s ⟨255, 0, 0⟩ 0 0)
    fun s => animColorChase s ⟨255, 0, 0⟩ 0 0

/-- `n` consecutive `anim_larson_scanner(Color(255,0,0), tail=2, fade=0.75)`
steps on a fresh 6-pixel strip. -/
def larsonRun : Nat → MRes
  | 0 => mkStrip 6
  | n + 1 => mstep (larsonRun n) fun s => animLarsonScanner s ⟨255, 0, 0⟩ 2 (3 / 4) 0 0

/-- A fresh 1-pixel strip reconfigured to BRG order with master
brightness `b`. -/
def stripBRG (b : ℚ) : Strip :=
  (setMasterBrightness (setChannelOrder (mkStrip 1).1 ChannelOrder.BRG) b).1

/-- A fresh 4-pixel strip filled with `Color(255, 0, 0)`. -/
def stripRed4 : Strip := (fill (mkStrip 4).1 ⟨255, 0, 0⟩ 0 none).1

/-- Python truncation agrees with the floor on nonnegative rationals. -/
theorem pyInt_eq_floor (q : ℚ) (hq : 0 ≤ q) : pyInt q = ⌊q⌋ := by
  unfold pyInt
  rw [Rat.floor_def]
  exact Int.tdiv_eq_ediv (Rat.num_nonneg.mpr hq) (Int.natCast_nonneg _)

/-- `int()` of a nonnegative rational is nonnegative. -/
theorem pyInt_nonneg (q : ℚ) (hq : 0 ≤ q) : 0 ≤ pyInt q := by
  rw [pyInt_eq_floor q hq]
  exact Int.floor_nonneg.mpr hq

/-- `int()` of a rational below 256 stays below 256. -/
theorem pyInt_lt_256 (q : ℚ) (hq : 0 ≤ q) (h : q < 256) : pyInt q < 256 := by
  rw [pyInt_eq_floor q hq]
  exact Int.floor_lt.mpr (by exact_mod_cast h)

/-- A gamma lookup at an in-range index succeeds. -/
theorem gammaAt_ok (k : Int) (h0 : 0 ≤ k) (h1 : k < 256) :
    gammaAt k = .ok (gammaByte k.toNat) := by
  simp only [gammaAt]
  rw [if_neg (by omega : ¬ k < 0), if_pos ⟨h0, h1⟩]

/-- A natural index below the length resolves to itself. -/
theorem pyIdx_natCast (len : Nat) (k : Nat) (h : k < len) :
    pyIdx len (k : Int) = some k := by
  simp only [pyIdx]
  rw [if_neg (by omega : ¬ (k : Int) < 0)]
  rw [if_pos (by constructor <;> omega : 0 ≤ (k : Int) ∧ (k : Int) < len)]
  rw [Int.toNat_natCast]

/-- An index outside `[-len, len)` does not resolve. -/
theorem pyIdx_none (len : Nat) (k : Int)
    (h : (len : Int) ≤ k ∨ k < -(len : Int)) : pyIdx len k = none := by
  simp only [pyIdx]
  by_cases hk : k < 0
  · rw [if_pos hk, if_neg (by omega)]
  · rw [if_neg hk, if_neg (by omega)]

/-- A negative in-range index resolves like its wrap. -/
theorem pyIdx_wrap (len : Nat) (k : Int)
    (h0 : -(len : Int) ≤ k) (h1 : k < 0) :
    pyIdx len k = pyIdx len (k + len) := by
  simp only [pyIdx]
  rw [if_pos h1, if_neg (by omega : ¬ k + (len : Int) < 0)]

/-- Reading a Python list at a natural index in range. -/
theorem pyGet_natCast {α : Type} (xs : List α) (k : Nat) (h : k < xs.length) :
    pyGet xs (k : Int) = .ok (xs.get ⟨k, h⟩) := by
  unfold pyGet
  rw [pyIdx_natCast xs.length k h]
  simp [List.getElem?_eq_getElem h]

/-- Writing a Python list at a natural index in range. -/
theorem pySet_natCast {α : Type} (xs : List α) (k : Nat) (a : α) (h : k < xs.length) :
    pySet xs (k : Int) a = .ok (xs.set k a) := by
  unfold pySet
  rw [pyIdx_natCast xs.length k h]

/-- Reading a Python list outside `[-len, len)` raises `IndexError`. -/
theorem pyGet_err {α : Type} (xs : List α) (k : Int)
    (h : (xs.length : Int) ≤ k ∨ k < -(xs.length : Int)) :
    pyGet xs k = .error .indexError := by
  unfold pyGet
  rw [pyIdx_none xs.length k h]

/-- Writing a Python list outside `[-len, len)` raises `IndexError`. -/
theorem pySet_err {α : Type} (xs : List α) (k : Int) (a : α)
    (h : (xs.length : Int) ≤ k ∨ k < -(xs.length : Int)) :
    pySet xs k a = .error .indexError := by
  unfold pySet
  rw [pyIdx_none xs.length k h]

/-- A negative in-range Python index reads the same element as its wrap. -/
theorem pyGet_wrap {α : Type} (xs : List α) (k : Int)
    (h0 : -(xs.length : Int) ≤ k) (h1 : k < 0) :
    pyGet xs k = pyGet xs (k + xs.length) := by
  unfold pyGet
  rw [pyIdx_wrap xs.length k h0 h1]

/-- A negative in-range Python index writes the same element as its wrap. -/
theorem pySet_wrap {α : Type} (xs : List α) (k : Int) (a : α)
    (h0 : -(xs.length : Int) ≤ k) (h1 : k < 0) :
    pySet xs k a = pySet xs (k + xs.length) a := by
  unfold pySet
  rw [pyIdx_wrap xs.length k h0 h1]

/-- A successful Python list write preserves the length. -/
theorem pySet_length {α : Type} {xs ys : List α} {k : Int} {a : α}
    (h : pySet xs k a = .ok ys) : ys.length = xs.length := by
  unfold pySet at h
  cases hidx : pyIdx xs.length k with
  | some i =>
    rw [hidx] at h
    cases h
    exact List.length_set ..
  | none =>
    rw [hidx] at h
    cases h

/-- The channel loop does nothing on an empty pair list. -/
theorem writeChannels_nil (s : Strip) (key : Int) :
    writeChannels s key [] = (s, none) := rfl

/-- One successful pass of the channel loop: the gamma byte of the scaled
value is stored at offset `dest` of pixel `k`, and the loop continues on
the updated state. -/
theorem writeChannels_cons_ok (s : Strip) (k : Nat) (row : List Nat) (dest : Nat)
    (val : ℚ) (rest : List (Nat × ℚ)) (hk : k < s.buffer.length)
    (hrow : s.buffer.get ⟨k, hk⟩ = row) (hdest : dest < row.length)
    (h0 : 0 ≤ val * s.masterBrightness) (h1 : val * s.masterBrightness < 256) :
    writeChannels s (k : Int) ((dest, val) :: rest) =
      writeChannels
        { s with buffer := s.buffer.set k (row.set dest
            (gammaByte (pyInt (val * s.masterBrightness)).toNat)) } (k : Int) rest := by
  have e1 : gammaAt (pyInt (val * s.masterBrightness)) =
      .ok (gammaByte (pyInt (val * s.masterBrightness)).toNat) :=
    gammaAt_ok _ (pyInt_nonneg _ h0) (pyInt_lt_256 _ h0 h1)
  have e2 : pyGet s.buffer (k : Int) = .ok row := by
    rw [pyGet_natCast s.buffer k hk, hrow]
  have e3 : pySet row (dest : Int)
      (gammaByte (pyInt (val * s.masterBrightness)).toNat) =
      .ok (row.set dest (gammaByte (pyInt (val * s.masterBrightness)).toNat)) :=
    pySet_natCast row dest _ hdest
  have e4 : pySet s.buffer (k : Int)
      (row.set dest (gammaByte (pyInt (val * s.masterBrightness)).toNat)) =
      .ok (s.buffer.set k
        (row.set dest (gammaByte (pyInt (val * s.masterBrightness)).toNat))) :=
    pySet_natCast s.buffer k _ hk
  simp only [writeChannels, e1, e2, e3, e4]

/-- The channel loop only rewrites the buffer, and keeps its length. -/
theorem writeChannels_shape (pairs : List (Nat × ℚ)) (s : Strip) (key : Int) :
    ∃ buf : List (List Nat),
      (writeChannels s key pairs).1 = { s with buffer := buf } ∧
      buf.length = s.buffer.length := by
  induction pairs generalizing s with
  | nil => exact ⟨s.buffer, rfl, rfl⟩
  | cons p rest ih =>
    obtain ⟨dest, val⟩ := p
    simp only [writeChannels]
    split
    · exact ⟨s.buffer, rfl, rfl⟩
    · split
      · exact ⟨s.buffer, rfl, rfl⟩
      · split
        · exact ⟨s.buffer, rfl, rfl⟩
        · split
          · exact ⟨s.buffer, rfl, rfl⟩
          · rename_i row' buf' hb
            obtain ⟨buf'', h1, h2⟩ := ih { s with buffer := buf' }
            exact ⟨buf'', h1, by rw [h2]; exact pySet_length hb⟩

/-- A single-index write only rewrites the buffer, and keeps its length. -/
theorem setItemInt_shape (s : Strip) (key : Int) (v : PixelInput) :
    ∃ buf : List (List Nat),
      (setItemInt s key v).1 = { s with buffer := buf } ∧
      buf.length = s.buffer.length := by
  simp only [setItemInt]
  split
  · exact ⟨s.buffer, rfl, rfl⟩
  · exact writeChannels_shape _ _ _

/-- The slice-write loop only rewrites the buffer, and keeps its length. -/
theorem setItemSliceAux_shape (stop step : Int) (values : List PixelInput) :
    ∀ (s : Strip) (i : Int),
      ∃ buf : List (List Nat),
        (setItemSliceAux stop step s i values).1 = { s with buffer := buf } ∧
        buf.length = s.buffer.length := by
  induction values with
  | nil =>
    intro s i
    simp only [setItemSliceAux]
    split
    · exact ⟨s.buffer, rfl, rfl⟩
    · exact ⟨s.buffer, rfl, rfl⟩
  | cons v rest ih =>
    intro s i
    simp only [setItemSliceAux]
    split
    · split
      · exact ⟨s.buffer, rfl, rfl⟩
      · obtain ⟨buf1, hb1, hl1⟩ := setItemInt_shape s i v
        cases hres : setItemInt s i v with
        | mk s' e? =>
          rw [hres] at hb1
          cases e? with
          | some e => exact ⟨buf1, hb1, hl1⟩
          | none =>
            subst hb1
            obtain ⟨buf2, hb2, hl2⟩ := ih { s with buffer := buf1 } (i + step)
            exact ⟨buf2, hb2, by rw [hl2]; exact hl1⟩
    · exact ⟨s.buffer, rfl, rfl⟩

/-- The constructor-set fields survive the initial clearing write. -/
theorem mkStrip_fields (n : Nat) :
    (mkStrip n).1.latch_bytes = (n + 31) / 32 ∧
    (mkStrip n).1.num_leds = n ∧
    (mkStrip n).1.buffer.length = n := by
  unfold mkStrip setItemSlice
  obtain ⟨buf, hb, hl⟩ :=
    setItemSliceAux_shape ((stripPre n).num_leds : Int) 1
      (List.replicate n (.triple [0, 0, 0])) (stripPre n) 0
  rw [hb]
  refine ⟨rfl, rfl, ?_⟩
  rw [show ({ stripPre n with buffer := buf } : Strip).buffer = buf from rfl, hl]
  simp [stripPre]

/-- `getD` after `set` at the same in-range position yields the new value. -/
theorem getD_set_self {α : Type} (l : List α) (i : Nat) (a d : α) (h : i < l.length) :
    (l.set i a).getD i d = a := by
  rw [List.getD_eq_getElem?_getD,
    List.getElem?_eq_getElem (by simpa using h)]
  simp [List.getElem_set_self]

/-- `getD` after `set` at a different position is unchanged. -/
theorem getD_set_ne {α : Type} (l : List α) (i j : Nat) (a d : α) (h : i ≠ j) :
    (l.set i a).getD j d = l.getD j d := by
  rw [List.getD_eq_getElem?_getD, List.getD_eq_getElem?_getD,
    List.getElem?_set_ne h]

/-- Setting an element to itself leaves the list unchanged. -/
theorem set_get_self {α : Type} (l : List α) (n : Nat) (h : n < l.length) :
    l.set n (l.get ⟨n, h⟩) = l := by
  induction l generalizing n with
  | nil => simp at h
  | cons a t ih =>
    cases n with
    | zero => rfl
    | succ m => simpa using ih m (by simpa using h)

/-- Full run of the channel loop on valid data: every `(dest, val)` pair
stores the gamma byte of `val * masterBrightness` at offset `dest` of
pixel `k`, left to right, and nothing raises. -/
theorem writeChannels_ok (pairs : List (Nat × ℚ)) :
    ∀ (s : Strip) (k : Nat) (hk : k < s.buffer.length),
      (∀ p ∈ pairs, p.1 < (s.buffer.get ⟨k, hk⟩).length) →
      (∀ p ∈ pairs, 0 ≤ p.2 * s.masterBrightness ∧
        p.2 * s.masterBrightness < 256) →
      writeChannels s (k : Int) pairs =
        ({ s with buffer := (s.buffer.set k (pairs.foldl (fun row p =>
              row.set p.1 (gammaByte (pyInt (p.2 * s.masterBrightness)).toNat))
              (s.buffer.get ⟨k, hk⟩))) }, none) := by
  induction pairs with
  | nil =>
    intro s k hk _ _
    rw [writeChannels_nil, List.foldl_nil, set_get_self]
  | cons p rest ih =>
    intro s k hk hd hb
    obtain ⟨dest, val⟩ := p
    have hdm := hd (dest, val) (by simp)
    have hbm := hb (dest, val) (by simp)
    rw [writeChannels_cons_ok s k (s.buffer.get ⟨k, hk⟩) dest val rest hk rfl
      hdm hbm.1 hbm.2]
    have hk2 : k < (s.buffer.set k ((s.buffer.get ⟨k, hk⟩).set dest
        (gammaByte (pyInt (val * s.masterBrightness)).toNat))).length := by
      simpa using hk
    rw [ih _ k hk2 ?hd2 ?hb2]
    case hd2 =>
      intro q hq
      have hdq := hd q (List.mem_cons_of_mem _ hq)
      rw [List.get_set_eq]
      simpa using hdq
    case hb2 =>
      intro q hq
      exact hb q (List.mem_cons_of_mem _ hq)
    rw [List.get_set_eq, List.set_set, List.foldl_cons]

/-- Engine of `__setitem__` with an integer key on a valid 3-value input:
with channel order `[d0, d1, d2]`, the write succeeds, replaces pixel `k`
by a fresh 3-byte record, and that record holds the gamma byte of
`value[c] * masterBrightness` at physical offset `d_c`. -/
theorem setItemInt_triple_ok (s : Strip) (k : Nat) (value : PixelInput)
    (v0 v1 v2 : ℚ) (d0 d1 d2 : Nat)
    (hval : inputVals value = [v0, v1, v2])
    (hk : k < s.buffer.length)
    (hord : s.c_order = [d0, d1, d2])
    (hd0 : d0 < 3) (hd1 : d1 < 3) (hd2 : d2 < 3)
    (hne01 : d0 ≠ d1) (hne02 : d0 ≠ d2) (hne12 : d1 ≠ d2)
    (hrow : (s.buffer.get ⟨k, hk⟩).length = 3)
    (hb0 : ∀ q ∈ [v0, v1, v2], 0 ≤ q * s.masterBrightness)
    (hb1 : ∀ q ∈ [v0, v1, v2], q * s.masterBrightness < 256) :
    ∃ r : List Nat,
      setItemInt s (k : Int) value =
        ({ s with buffer := s.buffer.set k r }, none) ∧
      r.length = 3 ∧
      r.getD d0 0 = gammaByte (pyInt (v0 * s.masterBrightness)).toNat ∧
      r.getD d1 0 = gammaByte (pyInt (v1 * s.masterBrightness)).toNat ∧
      r.getD d2 0 = gammaByte (pyInt (v2 * s.masterBrightness)).toNat := by
  refine ⟨(((s.buffer.get ⟨k, hk⟩).set d0
      (gammaByte (pyInt (v0 * s.masterBrightness)).toNat)).set d1
      (gammaByte (pyInt (v1 * s.masterBrightness)).toNat)).set d2
      (gammaByte (pyInt (v2 * s.masterBrightness)).toNat), ?_, ?_, ?_, ?_, ?_⟩
  · simp only [setItemInt, hval]
    rw [if_neg (by simp), hord]
    rw [show ([d0, d1, d2] : List Nat).zip [v0, v1, v2] =
      [(d0, v0), (d1, v1), (d2, v2)] from rfl]
    rw [writeChannels_ok [(d0, v0), (d1, v1), (d2, v2)] s k hk ?hd ?hb]
    case hd =>
      intro q hq
      rw [hrow]
      simp only [List.mem_cons, List.not_mem_nil, or_false] at hq
      rcases hq with h | h | h
      · rw [h]; exact hd0
      · rw [h]; exact hd1
      · rw [h]; exact hd2
    case hb =>
      intro q hq
      simp only [List.mem_cons, List.not_mem_nil, or_false] at hq
      rcases hq with h | h | h
      · rw [h]; exact ⟨hb0 _ (by simp), hb1 _ (by simp)⟩
      · rw [h]; exact ⟨hb0 _ (by simp), hb1 _ (by simp)⟩
      · rw [h]; exact ⟨hb0 _ (by simp), hb1 _ (by simp)⟩
    rw [hord]
    simp only [List.foldl_cons, List.foldl_nil]
  · simpa using hrow
  · rw [getD_set_ne _ _ _ _ _ (Ne.symm hne02), getD_set_ne _ _ _ _ _ (Ne.symm hne01),
      getD_set_self _ _ _ _ (by rw [hrow]; exact hd0)]
  · rw [getD_set_ne _ _ _ _ _ (Ne.symm hne12),
      getD_set_self _ _ _ _ (by rw [List.length_set, hrow]; exact hd1)]
  · rw [getD_set_self _ _ _ _
      (by rw [List.length_set, List.length_set, hrow]; exact hd2)]

/-- Left fold with append over a list of lists is the flattening. -/
theorem foldl_append_eq_flatten {α : Type} (L : List (List α)) (acc : List α) :
    L.foldl (fun a e => a ++ e) acc = acc ++ L.flatten := by
  induction L generalizing acc with
  | nil => simp
  | cons x t ih => simp [ih, List.append_assoc]

/-- The total byte count of a buffer of 3-byte records. -/
theorem sum_lengths_three (L : List (List Nat)) (h : ∀ r ∈ L, r.length = 3) :
    (L.map List.length).sum = 3 * L.length := by
  induction L with
  | nil => simp
  | cons x t ih =>
    have hx := h x (by simp)
    have ht := ih (fun r hr => h r (by simp [hr]))
    simp [hx, ht, Nat.mul_succ, Nat.add_comm]

/-- C2: `update()` writes exactly the current 3-byte pixel records to the
sink in buffer order, 3·N bytes in all, immediately followed by the latch
bytes; on a fresh 4-pixel strip filled with `Color(255, 0, 0)` the sink
receives the 12 gamma-encoded, channel-reordered bytes
`[0x80, 0xFF, 0x80]` four times, followed by the single zero latch
byte. -/
theorem update_pushes_full_buffer_then_latch (s : Strip)
    (h3 : ∀ r ∈ s.buffer, r.length = 3) (hn : s.buffer.length = s.num_leds) :
    updateTrace s = s.buffer.flatten ++ List.replicate s.latch_bytes 0 ∧
    (updateTrace s).length = 3 * s.num_leds + s.latch_bytes ∧
    Color.build 255 0 0 1 = .ok ⟨255, 0, 0⟩ ∧
    (fill (mkStrip 4).1 ⟨255, 0, 0⟩ 0 none).2 = none ∧
    updateTrace stripRed4 =
      [128, 255, 128, 128, 255, 128, 128, 255, 128, 128, 255, 128, 0] := by
  have h1 : updateTrace s = s.buffer.flatten ++ List.replicate s.latch_bytes 0 := by
    unfold updateTrace latchTrace
    rw [foldl_append_eq_flatten, List.nil_append]
  refine ⟨h1, ?_, by decide!, by decide!, by decide!⟩
  rw [h1, List.length_append, List.length_replicate, List.length_flatten,
    sum_lengths_three s.buffer h3, hn]

/-- C2 witness: the general statement instantiated on the filled 4-pixel
strip. -/
theorem update_pushes_full_buffer_then_latch_witness :
    updateTrace stripRed4 =
      stripRed4.buffer.flatten ++ List.replicate stripRed4.latch_bytes 0 ∧
    (updateTrace stripRed4).length = 3 * stripRed4.num_leds + stripRed4.latch_bytes :=
  ⟨(update_pushes_full_buffer_then_latch stripRed4 (by decide!) (by decide!)).1,
   (update_pushes_full_buffer_then_latch stripRed4 (by decide!) (by decide!)).2.1⟩

/-- The constructor count `int((n + 31) / 32)` equals `⌈n / 32⌉`. -/
theorem add31_div32_eq_ceil (n : Nat) (hn : 1 ≤ n) :
    (n + 31) / 32 = ⌈(n : ℚ) / 32⌉₊ := by
  symm
  rw [Nat.ceil_eq_iff (by omega)]
  constructor
  · rw [lt_div_iff (by norm_num : (0 : ℚ) < 32)]
    have g1 : 32 * ((n + 31) / 32 - 1) < n := by omega
    calc (((n + 31) / 32 - 1 : ℕ) : ℚ) * 32
        = ((32 * ((n + 31) / 32 - 1) : ℕ) : ℚ) := by push_cast; ring
      _ < (n : ℚ) := by exact_mod_cast g1
  · rw [div_le_iff (by norm_num : (0 : ℚ) < 32)]
    have g2 : n ≤ 32 * ((n + 31) / 32) := by omega
    calc (n : ℚ) ≤ ((32 * ((n + 31) / 32) : ℕ) : ℚ) := by exact_mod_cast g2
      _ = (((n + 31) / 32 : ℕ) : ℚ) * 32 := by push_cast; ring

/-- C3: for every strip length `n ≥ 1`, `_latch` writes exactly
`⌈n / 32⌉ = (n + 31) / 32` zero bytes; in particular 1 byte for `n = 1`
and `n = 32`, and 2 bytes for `n = 33` and `n = 64`. -/
theorem latch_writes_ceil_div_32 (n : Nat) (hn : 1 ≤ n) :
    (mkStrip n).1.latch_bytes = (n + 31) / 32 ∧
    latchTrace (mkStrip n).1 = List.replicate (⌈(n : ℚ) / 32⌉₊) 0 ∧
    latchTrace (mkStrip 1).1 = [0] ∧
    latchTrace (mkStrip 32).1 = [0] ∧
    latchTrace (mkStrip 33).1 = [0, 0] ∧
    latchTrace (mkStrip 64).1 = [0, 0] := by
  obtain ⟨hl, _, _⟩ := mkStrip_fields n
  refine ⟨hl, ?_, by decide!, by decide!, by decide!, by decide!⟩
  unfold latchTrace
  rw [hl, add31_div32_eq_ceil n hn]

/-- C3 witness: the latch byte count at `n = 33`. -/
theorem latch_writes_ceil_div_32_witness :
    (mkStrip 33).1.latch_bytes = (33 + 31) / 32 ∧
    latchTrace (mkStrip 33).1 = List.replicate (⌈(33 : ℚ) / 32⌉₊) 0 :=
  ⟨(latch_writes_ceil_div_32 33 (by norm_num)).1,
   (latch_writes_ceil_div_32 33 (by norm_num)).2.1⟩

/-- C1: setting pixel `k` in `[0, length)` with a valid 3-component value
stores, for each logical channel `c` in `{0, 1, 2}`, the byte
`gamma[int(value[c] * masterBrightness)]` at physical offset
`channelOrder[c]` of pixel `k`'s 3-byte record, and leaves every other
pixel unchanged. -/
theorem setitem_stores_gamma_at_channel_order (s : Strip) (k : Nat) (v0 v1 v2 : ℚ)
    (hlen : s.buffer.length = s.num_leds) (hk : k < s.num_leds)
    (hord : s.c_order = ChannelOrder.RGB ∨ s.c_order = ChannelOrder.GRB ∨
      s.c_order = ChannelOrder.BRG)
    (hrow : (s.buffer.getD k []).length = 3)
    (hb0 : ∀ q ∈ [v0, v1, v2], 0 ≤ q * s.masterBrightness)
    (hb1 : ∀ q ∈ [v0, v1, v2], q * s.masterBrightness < 256) :
    ∃ r : List Nat,
      setItemInt s (k : Int) (.triple [v0, v1, v2]) =
        ({ s with buffer := s.buffer.set k r }, none) ∧
      (∀ c : Fin 3,
        r.getD (s.c_order.getD (c : Nat) 0) 0 =
          gammaByte (pyInt ([v0, v1, v2].getD (c : Nat) 0 * s.masterBrightness)).toNat) ∧
      (∀ j : Nat, j ≠ k → (s.buffer.set k r).getD j [] = s.buffer.getD j []) := by
  have hk' : k < s.buffer.length := by rw [hlen]; exact hk
  have hgd : s.buffer.getD k [] = s.buffer.get ⟨k, hk'⟩ := by
    rw [List.getD_eq_getElem?_getD, List.getElem?_eq_getElem hk']
    rfl
  have hrow' : (s.buffer.get ⟨k, hk'⟩).length = 3 := by rw [← hgd]; exact hrow
  rcases hord with ho | ho | ho
  · obtain ⟨r, hset, hlen3, h0, h1, h2⟩ :=
      setItemInt_triple_ok s k (.triple [v0, v1, v2]) v0 v1 v2 0 1 2 rfl hk' (by rw [ho]; rfl)
        (by norm_num) (by norm_num) (by norm_num)
        (by norm_num) (by norm_num) (by norm_num) hrow' hb0 hb1
    refine ⟨r, hset, ?_, ?_⟩
    · intro c
      fin_cases c
      · simpa [ho] using h0
      · simpa [ho] using h1
      · simpa [ho] using h2
    · intro j hj
      exact getD_set_ne _ _ _ _ _ (Ne.symm hj)
  · obtain ⟨r, hset, hlen3, h0, h1, h2⟩ :=
      setItemInt_triple_ok s k (.triple [v0, v1, v2]) v0 v1 v2 1 0 2 rfl hk' (by rw [ho]; rfl)
        (by norm_num) (by norm_num) (by norm_num)
        (by norm_num) (by norm_num) (by norm_num) hrow' hb0 hb1
    refine ⟨r, hset, ?_, ?_⟩
    · intro c
      fin_cases c
      · simpa [ho] using h0
      · simpa [ho] using h1
      · simpa [ho] using h2
    · intro j hj
      exact getD_set_ne _ _ _ _ _ (Ne.symm hj)
  · obtain ⟨r, hset, hlen3, h0, h1, h2⟩ :=
      setItemInt_triple_ok s k (.triple [v0, v1, v2]) v0 v1 v2 1 2 0 rfl hk' (by rw [ho]; rfl)
        (by norm_num) (by norm_num) (by norm_num)
        (by norm_num) (by norm_num) (by norm_num) hrow' hb0 hb1
    refine ⟨r, hset, ?_, ?_⟩
    · intro c
      fin_cases c
      · simpa [ho] using h0
      · simpa [ho] using h1
      · simpa [ho] using h2
    · intro j hj
      exact getD_set_ne _ _ _ _ _ (Ne.symm hj)

/-- C1 witness: the single-pixel write contract on a fresh 2-pixel strip
at index 1 with value `(255, 10, 0)`. -/
theorem setitem_stores_gamma_at_channel_order_witness :
    ∃ r : List Nat,
      setItemInt (mkStrip 2).1 ((1 : Nat) : Int) (.triple [255, 10, 0]) =
        ({ (mkStrip 2).1 with buffer := (mkStrip 2).1.buffer.set 1 r }, none) ∧
      (∀ c : Fin 3,
        r.getD ((mkStrip 2).1.c_order.getD (c : Nat) 0) 0 =
          gammaByte (pyInt ([255, 10, 0].getD (c : Nat) 0 *
            (mkStrip 2).1.masterBrightness)).toNat) ∧
      (∀ j : Nat, j ≠ 1 →
        ((mkStrip 2).1.buffer.set 1 r).getD j [] = (mkStrip 2).1.buffer.getD j []) :=
  setitem_stores_gamma_at_channel_order (mkStrip 2).1 1 255 10 0
    (by decide!) (by decide!) (Or.inr (Or.inl (by decide!)))
    (by decide!) (by decide!) (by decide!)

/-- A color constructed from values in `[0, 255]` at brightness 1 stores
those values unchanged. -/
theorem Color.build_ok (r g b : ℚ) (hr0 : 0 ≤ r) (hr1 : r ≤ 255)
    (hg0 : 0 ≤ g) (hg1 : g ≤ 255) (hbl0 : 0 ≤ b) (hbl1 : b ≤ 255) :
    Color.build r g b 1 = .ok ⟨r, g, b⟩ := by
  unfold Color.build
  rw [if_neg (by push_neg; exact ⟨hr1, hr0, hg1, hg0, hbl1, hbl0⟩)]
  rw [if_neg (by norm_num)]
  rw [mul_one, mul_one, mul_one]

/-- C10: `wheel_color` never raises: the input is clamped to `[0, 384]`
before the three-segment computation, and every channel of the returned
color lies in `[0, 127]`. -/
theorem wheel_color_total_channels_le_127 (w : Int) :
    ∃ c : Color, wheel_color w = .ok c ∧
      0 ≤ c.R ∧ c.R ≤ 127 ∧ 0 ≤ c.G ∧ c.G ≤ 127 ∧ 0 ≤ c.B ∧ c.B ≤ 127 ∧
      (w < 0 → wheel_color w = wheel_color 0) ∧
      (384 < w → wheel_color w = wheel_color 384) := by
  have hclamp0 : w < 0 → wheel_color w = wheel_color 0 := by
    intro hw
    simp only [wheel_color]
    split_ifs <;> first | rfl | omega
  have hclamp384 : 384 < w → wheel_color w = wheel_color 384 := by
    intro hw
    simp only [wheel_color]
    split_ifs <;> first | rfl | omega
  have hmain : ∃ c : Color, wheel_color w = .ok c ∧
      0 ≤ c.R ∧ c.R ≤ 127 ∧ 0 ≤ c.G ∧ c.G ≤ 127 ∧ 0 ≤ c.B ∧ c.B ≤ 127 := by
    unfold wheel_color
    set w1 : Int := if w < 0 then 0 else w with hw1
    set w2 : Int := if w1 > 384 then 384 else w1 with hw2
    have h02 : 0 ≤ w2 ∧ w2 ≤ 384 := by
      rw [hw2, hw1]
      split_ifs <;> omega
    have e1 : 0 ≤ w2 % 128 := Int.emod_nonneg _ (by norm_num)
    have e2 : w2 % 128 < 128 := Int.emod_lt_of_pos _ (by norm_num)
    have m0 : (0 : ℚ) ≤ ((w2 % 128 : Int) : ℚ) := by exact_mod_cast e1
    have m1 : ((w2 % 128 : Int) : ℚ) ≤ 127 := by
      exact_mod_cast (by omega : w2 % 128 ≤ 127)
    have n0 : (0 : ℚ) ≤ ((127 - w2 % 128 : Int) : ℚ) := by
      exact_mod_cast (by omega : (0 : Int) ≤ 127 - w2 % 128)
    have n1 : ((127 - w2 % 128 : Int) : ℚ) ≤ 127 := by
      exact_mod_cast (by omega : (127 - w2 % 128 : Int) ≤ 127)
    by_cases hb1 : w2 < 128
    · rw [if_pos hb1, Color.build_ok _ _ _ n0 (by linarith) m0 (by linarith)
        (by norm_num) (by norm_num)]
      exact ⟨_, rfl, n0, n1, m0, m1, by norm_num, by norm_num⟩
    · rw [if_neg hb1]
      by_cases hb2 : w2 < 256
      · rw [if_pos hb2, Color.build_ok _ _ _ (by norm_num) (by norm_num)
          n0 (by linarith) m0 (by linarith)]
        exact ⟨_, rfl, by norm_num, by norm_num, n0, n1, m0, m1⟩
      · rw [if_neg hb2, Color.build_ok _ _ _ m0 (by linarith) (by norm_num)
          (by norm_num) n0 (by linarith)]
        exact ⟨_, rfl, m0, m1, by norm_num, by norm_num, n0, n1⟩
  obtain ⟨c, hc, b1, b2, b3, b4, b5, b6⟩ := hmain
  exact ⟨c, hc, b1, b2, b3, b4, b5, b6, hclamp0, hclamp384⟩

/-- The channel loop at a negative in-range key behaves exactly as at the
wrapped key. -/
theorem writeChannels_wrap (pairs : List (Nat × ℚ)) :
    ∀ (s : Strip) (k : Int), -(s.buffer.length : Int) ≤ k → k < 0 →
      writeChannels s k pairs = writeChannels s (k + s.buffer.length) pairs := by
  induction pairs with
  | nil => intro s k _ _; rfl
  | cons p rest ih =>
    intro s k h0 h1
    obtain ⟨dest, val⟩ := p
    simp only [writeChannels]
    rw [pyGet_wrap s.buffer k h0 h1]
    split
    · rfl
    · split
      · rfl
      · split
        · rfl
        · rename_i row' hrow'
          rw [pySet_wrap s.buffer k row' h0 h1]
          split
          · rfl
          · rename_i buf' hsb
            have hlb := pySet_length hsb
            have hrec := ih { s with buffer := buf' } k
              (by rw [show ({ s with buffer := buf' } : Strip).buffer = buf' from rfl,
                hlb]; exact h0) h1
            rw [hrec, show ({ s with buffer := buf' } : Strip).buffer = buf' from rfl,
              hlb]

/-- A color constructor call with any out-of-range argument raises
`ValueError`. -/
theorem Color.build_err (r g b br : ℚ)
    (hbad : r > 255 ∨ r < 0 ∨ g > 255 ∨ g < 0 ∨ b > 255 ∨ b < 0 ∨
      br > 1 ∨ br < 0) :
    Color.build r g b br = .error .valueError := by
  unfold Color.build
  by_cases h1 : r > 255 ∨ r < 0 ∨ g > 255 ∨ g < 0 ∨ b > 255 ∨ b < 0
  · rw [if_pos h1]
  · rw [if_neg h1, if_pos (by tauto)]

/-- C5 amended: on a fresh 1-pixel BRG strip with master brightness
`b ∈ [0, 1]`, writing `Color(10, 20, 30)` yields the record whose
physical order is `[gamma(30·b), gamma(10·b), gamma(20·b)]`: the BRG
permutation `[1, 2, 0]` sends logical 0 (R) to physical offset 1,
logical 1 (G) to physical offset 2, and logical 2 (B) to physical
offset 0. -/
theorem brg_write_inverse_permutation (b : ℚ) (h0 : 0 ≤ b) (h1 : b ≤ 1) :
    ∃ r : List Nat,
      setPix (stripBRG b) 0 ⟨10, 20, 30⟩ =
        ({ stripBRG b with buffer := [r] }, none) ∧
      r.length = 3 ∧
      r.getD 1 0 = gammaByte (pyInt (10 * b)).toNat ∧
      r.getD 2 0 = gammaByte (pyInt (20 * b)).toNat ∧
      r.getD 0 0 = gammaByte (pyInt (30 * b)).toNat := by
  have hm : (mkStrip 1).1 =
      ⟨ChannelOrder.GRB, 1, 1, [[128, 128, 128]], 1, 0, 0, 0, 0, 0, -1, 0, 0⟩ := by
    decide!
  have hstrip : stripBRG b =
      ⟨ChannelOrder.BRG, 1, 1, [[128, 128, 128]], b, 0, 0, 0, 0, 0, -1, 0, 0⟩ := by
    unfold stripBRG setChannelOrder setMasterBrightness
    rw [hm, if_neg (by push_neg; exact ⟨h1, h0⟩)]
  have hkb : 0 < (stripBRG b).buffer.length := by rw [hstrip]; norm_num
  have hmb : (stripBRG b).masterBrightness = b := by
    rw [hstrip]
  have hvb : ∀ q ∈ [(10 : ℚ), 20, 30],
      0 ≤ q * (stripBRG b).masterBrightness ∧
      q * (stripBRG b).masterBrightness < 256 := by
    intro q hq
    rw [hmb]
    simp only [List.mem_cons, List.not_mem_nil, or_false] at hq
    rcases hq with h | h | h <;> rw [h] <;>
      exact ⟨by positivity, by nlinarith⟩
  have hgd0 : (stripBRG b).buffer.getD 0 [] = [128, 128, 128] := by
    rw [hstrip]
    rfl
  have hgd : (stripBRG b).buffer.getD 0 [] = (stripBRG b).buffer.get ⟨0, hkb⟩ := by
    rw [List.getD_eq_getElem?_getD, List.getElem?_eq_getElem hkb]
    rfl
  have hrowlen : ((stripBRG b).buffer.get ⟨0, hkb⟩).length = 3 := by
    rw [← hgd, hgd0]
    rfl
  obtain ⟨r, hset, hlen3, hg1, hg2, hg0⟩ :=
    setItemInt_triple_ok (stripBRG b) 0 (.color ⟨10, 20, 30⟩) 10 20 30 1 2 0
      rfl hkb (by rw [hstrip]; rfl) (by norm_num) (by norm_num) (by norm_num)
      (by norm_num) (by norm_num) (by norm_num)
      hrowlen
      (fun q hq => (hvb q hq).1) (fun q hq => (hvb q hq).2)
  have hbuf : (stripBRG b).buffer.set 0 r = [r] := by
    rw [hstrip]
    rfl
  rw [hbuf] at hset
  refine ⟨r, hset, hlen3, ?_, ?_, ?_⟩
  · rw [hmb] at hg1
    exact hg1
  · rw [hmb] at hg2
    exact hg2
  · rw [hmb] at hg0
    exact hg0

/-- C5 amended witness: the BRG write contract at brightness one half. -/
theorem brg_write_inverse_permutation_witness :
    ∃ r : List Nat,
      setPix (stripBRG (1 / 2)) 0 ⟨10, 20, 30⟩ =
        ({ stripBRG (1 / 2) with buffer := [r] }, none) ∧
      r.length = 3 ∧
      r.getD 1 0 = gammaByte (pyInt (10 * (1 / 2))).toNat ∧
      r.getD 2 0 = gammaByte (pyInt (20 * (1 / 2))).toNat ∧
      r.getD 0 0 = gammaByte (pyInt (30 * (1 / 2))).toNat :=
  brg_write_inverse_permutation (1 / 2) (by norm_num) (by norm_num)

/-- C6 amended: a single-pixel write with wrong arity and a fill whose
color fails construction raise `ValueError` with the buffer untouched,
but a range write that fails validation at a later element has already
applied the earlier elements: on a fresh 2-pixel strip,
`strip[0:2] = [[255,0,0],[4,5]]` raises at the second element with pixel
0 already rewritten. -/
theorem validation_failure_buffer_effects (s : Strip) (k : Int) (v : List ℚ)
    (hv : v.length ≠ 3) (r g b br : ℚ) (start : Int) (end? : Option Int)
    (hbad : r > 255 ∨ r < 0 ∨ g > 255 ∨ g < 0 ∨ b > 255 ∨ b < 0 ∨
      br > 1 ∨ br < 0) :
    setItemInt s k (.triple v) = (s, some .valueError) ∧
    fillColor s r g b br start end? = (s, some .valueError) ∧
    (setItemSlice (mkStrip 2).1 0 (some 2) none
        [.triple [255, 0, 0], .triple [4, 5]]).1.buffer =
      [[128, 255, 128], [128, 128, 128]] ∧
    (setItemSlice (mkStrip 2).1 0 (some 2) none
        [.triple [255, 0, 0], .triple [4, 5]]).2 = some .valueError := by
  refine ⟨?_, ?_, by decide!, by decide!⟩
  · simp only [setItemInt, inputVals]
    rw [if_pos hv]
  · have hcb : Color.build r g b br = .error .valueError :=
      Color.build_err r g b br hbad
    simp only [fillColor, hcb]

/-- C6 amended witness: a wrong-arity single write and an out-of-range
fill on a fresh 2-pixel strip. -/
theorem validation_failure_buffer_effects_witness :
    setItemInt (mkStrip 2).1 0 (.triple [1, 2]) = ((mkStrip 2).1, some .valueError) ∧
    fillColor (mkStrip 2).1 300 0 0 1 0 none = ((mkStrip 2).1, some .valueError) :=
  ⟨(validation_failure_buffer_effects (mkStrip 2).1 0 [1, 2] (by norm_num)
      300 0 0 1 0 none (by norm_num)).1,
   (validation_failure_buffer_effects (mkStrip 2).1 0 [1, 2] (by norm_num)
      300 0 0 1 0 none (by norm_num)).2.1⟩

/-- C7 amended: reads and writes at indices in `[0, length)` succeed;
indices at or above `length`, and below `-length`, raise `IndexError`
for both reads and writes; negative indices in `[-length, -1]` do not
raise but wrap Python-style to `k + length`. -/
theorem index_wrap_and_error_semantics (s : Strip) (k : Int)
    (hlen : s.buffer.length = s.num_leds) (hord3 : s.c_order.length = 3) :
    (0 ≤ k → k < s.num_leds → ∃ v, getItem s k = .ok v) ∧
    ((s.num_leds : Int) ≤ k ∨ k < -(s.num_leds : Int) →
      getItem s k = .error .indexError ∧
      setItemInt s k (.triple [0, 0, 0]) = (s, some .indexError)) ∧
    (-(s.num_leds : Int) ≤ k → k < 0 →
      getItem s k = getItem s (k + s.num_leds) ∧
      setItemInt s k (.triple [0, 0, 0]) =
        setItemInt s (k + s.num_leds) (.triple [0, 0, 0])) := by
  refine ⟨?_, ?_, ?_⟩
  · intro hk0 hkn
    obtain ⟨m, rfl⟩ : ∃ m : Nat, k = (m : Int) :=
      ⟨k.toNat, (Int.toNat_of_nonneg hk0).symm⟩
    have hm : m < s.buffer.length := by rw [hlen]; exact_mod_cast hkn
    exact ⟨_, pyGet_natCast s.buffer m hm⟩
  · intro hk
    have hk' : (s.buffer.length : Int) ≤ k ∨ k < -(s.buffer.length : Int) := by
      rw [hlen]
      exact hk
    refine ⟨pyGet_err s.buffer k hk', ?_⟩
    obtain ⟨d, t, ht⟩ : ∃ d t, s.c_order = d :: t := by
      cases ho : s.c_order with
      | nil => rw [ho] at hord3; simp at hord3
      | cons d t => exact ⟨d, t, rfl⟩
    have hz : (0 : ℚ) * s.masterBrightness = 0 := zero_mul _
    have hpz : pyInt 0 = 0 := rfl
    have hga : gammaAt 0 = .ok (gammaByte 0) := gammaAt_ok 0 le_rfl (by norm_num)
    have hge : pyGet s.buffer k = (.error .indexError : Except PyErr (List Nat)) :=
      pyGet_err s.buffer k hk'
    simp only [setItemInt, inputVals]
    rw [if_neg (by norm_num), ht]
    rw [show ((d :: t).zip [(0 : ℚ), 0, 0]) = (d, (0 : ℚ)) :: t.zip [0, 0] from rfl]
    simp only [writeChannels, hz, hpz, hga, hge]
  · intro hneg h1
    have h0' : -(s.buffer.length : Int) ≤ k := by rw [hlen]; exact hneg
    constructor
    · unfold getItem
      rw [pyGet_wrap s.buffer k h0' h1, hlen]
    · simp only [setItemInt, inputVals]
      rw [if_neg (by norm_num), if_neg (by norm_num)]
      rw [writeChannels_wrap _ s k h0' h1, hlen]

/-- C7 amended witness: the index characterization on a fresh 2-pixel
strip at index -1. -/
theorem index_wrap_and_error_semantics_witness :
    (0 ≤ (-1 : Int) → (-1 : Int) < (mkStrip 2).1.num_leds →
      ∃ v, getItem (mkStrip 2).1 (-1) = .ok v) ∧
    (((mkStrip 2).1.num_leds : Int) ≤ (-1 : Int) ∨
        (-1 : Int) < -((mkStrip 2).1.num_leds : Int) →
      getItem (mkStrip 2).1 (-1) = .error .indexError ∧
      setItemInt (mkStrip 2).1 (-1) (.triple [0, 0, 0]) =
        ((mkStrip 2).1, some .indexError)) ∧
    (-((mkStrip 2).1.num_leds : Int) ≤ (-1 : Int) → (-1 : Int) < 0 →
      getItem (mkStrip 2).1 (-1) = getItem (mkStrip 2).1 (-1 + (mkStrip 2).1.num_leds) ∧
      setItemInt (mkStrip 2).1 (-1) (.triple [0, 0, 0]) =
        setItemInt (mkStrip 2).1 (-1 + (mkStrip 2).1.num_leds) (.triple [0, 0, 0])) :=
  index_wrap_and_error_semantics (mkStrip 2).1 (-1) (by decide!) (by decide!)

/-- `isqrtAux` finds the integer square root given enough fuel. -/
theorem isqrtAux_spec (n : Nat) : ∀ (f m : Nat), m * m ≤ n →
    n < (m + f + 1) * (m + f + 1) →
    isqrtAux n f m * isqrtAux n f m ≤ n ∧
      n < (isqrtAux n f m + 1) * (isqrtAux n f m + 1) := by
  intro f
  induction f with
  | zero =>
    intro m h1 h2
    exact ⟨h1, by simpa using h2⟩
  | succ f ih =>
    intro m h1 h2
    simp only [isqrtAux]
    split
    · refine ih (m + 1) (by assumption) ?_
      have e : m + (f + 1) + 1 = m + 1 + f + 1 := by omega
      rwa [e] at h2
    · rename_i hnot
      exact ⟨h1, Nat.lt_of_not_le hnot⟩

/-- `isqrtLe` is the integer square root. -/
theorem isqrtLe_spec (n : Nat) :
    isqrtLe n * isqrtLe n ≤ n ∧ n < (isqrtLe n + 1) * (isqrtLe n + 1) := by
  unfold isqrtLe
  refine isqrtAux_spec n n 0 (by simp) ?_
  nlinarith [Nat.zero_le n]

/-- The integer square root is monotone. -/
theorem isqrtLe_mono {m n : Nat} (h : m ≤ n) : isqrtLe m ≤ isqrtLe n := by
  obtain ⟨h1, _⟩ := isqrtLe_spec m
  obtain ⟨_, h4⟩ := isqrtLe_spec n
  by_contra hc
  push_neg at hc
  have : (isqrtLe n + 1) * (isqrtLe n + 1) ≤ isqrtLe m * isqrtLe m :=
    Nat.mul_le_mul (by omega) (by omega)
  omega

/-- An upper bound transfers to the integer square root. -/
theorem isqrtLe_le {n c : Nat} (h : n < (c + 1) * (c + 1)) : isqrtLe n ≤ c := by
  obtain ⟨h1, _⟩ := isqrtLe_spec n
  by_contra hc
  push_neg at hc
  have : (c + 1) * (c + 1) ≤ isqrtLe n * isqrtLe n := Nat.mul_le_mul hc hc
  omega

/-- The floor of a real square root is the integer square root of the
floor. -/
theorem nat_floor_sqrt (q : ℝ) (hq : 0 ≤ q) :
    ⌊Real.sqrt q⌋₊ = isqrtLe ⌊q⌋₊ := by
  obtain ⟨h1, h2⟩ := isqrtLe_spec ⌊q⌋₊
  rw [Nat.floor_eq_iff (Real.sqrt_nonneg q)]
  constructor
  · rw [Real.le_sqrt (by positivity) hq]
    calc ((isqrtLe ⌊q⌋₊ : ℝ)) ^ 2
        = ((isqrtLe ⌊q⌋₊ * isqrtLe ⌊q⌋₊ : ℕ) : ℝ) := by push_cast; ring
      _ ≤ (⌊q⌋₊ : ℝ) := by exact_mod_cast h1
      _ ≤ q := Nat.floor_le hq
  · rw [Real.sqrt_lt' (by positivity)]
    calc q < (⌊q⌋₊ : ℝ) + 1 := Nat.lt_floor_add_one q
      _ ≤ (((isqrtLe ⌊q⌋₊ + 1) * (isqrtLe ⌊q⌋₊ + 1) : ℕ) : ℝ) := by
          exact_mod_cast h2
      _ = ((isqrtLe ⌊q⌋₊ : ℝ) + 1) ^ 2 := by push_cast; ring

/-- Rounding to the nearest integer via the floor of the double. -/
theorem floor_add_half (x : ℝ) (hx : 0 ≤ x) :
    ⌊x + 1 / 2⌋₊ = (⌊2 * x⌋₊ + 1) / 2 := by
  have h1 : x + 1 / 2 = (2 * x + 1) / ((2 : ℕ) : ℝ) := by push_cast; ring
  rw [h1, Nat.floor_div_nat, Nat.floor_add_one (by positivity)]

/-- Real exponent 2.5 on a nonnegative base is the square root of the
fifth power. -/
theorem rpow_twoPointFive (x : ℝ) (hx : 0 ≤ x) :
    x ^ (2.5 : ℝ) = Real.sqrt (x ^ 5) := by
  rw [show (2.5 : ℝ) = ((5 : ℕ) : ℝ) * (1 / 2) by norm_num]
  rw [Real.rpow_mul hx, Real.rpow_natCast, ← Real.sqrt_eq_rpow]

/-- The gamma byte computes the exact rounded gamma curve
`0x80 | ⌊127·(i/255)^2.5 + 1/2⌋`. -/
theorem gammaByte_formula (i : Nat) :
    gammaByte i = 0x80 ||| ⌊127 * ((i : ℝ) / 255) ^ (2.5 : ℝ) + 1 / 2⌋₊ := by
  have hx : (0 : ℝ) ≤ (i : ℝ) / 255 := by positivity
  have h1 : (127 : ℝ) * ((i : ℝ) / 255) ^ (2.5 : ℝ) =
      Real.sqrt (16129 * ((i : ℝ) / 255) ^ 5) := by
    rw [rpow_twoPointFive _ hx]
    rw [show (16129 : ℝ) = 127 ^ 2 by norm_num,
      Real.sqrt_mul (by positivity), Real.sqrt_sq (by norm_num)]
  have h4 : Real.sqrt 4 = 2 := by
    rw [show (4 : ℝ) = 2 ^ 2 by norm_num, Real.sqrt_sq (by norm_num)]
  have h2 : (2 : ℝ) * (127 * ((i : ℝ) / 255) ^ (2.5 : ℝ)) =
      Real.sqrt (((64516 * i ^ 5 : ℕ) : ℝ) / ((255 ^ 5 : ℕ) : ℝ)) := by
    rw [h1, ← h4, ← Real.sqrt_mul (by norm_num : (0 : ℝ) ≤ 4)]
    congr 1
    push_cast
    field_simp
    ring
  have h3 : ⌊127 * ((i : ℝ) / 255) ^ (2.5 : ℝ) + 1 / 2⌋₊ =
      (isqrtLe (64516 * i ^ 5 / 255 ^ 5) + 1) / 2 := by
    rw [floor_add_half _ (by positivity), h2,
      nat_floor_sqrt _ (by positivity), Nat.floor_div_nat, Nat.floor_natCast]
  rw [h3]
  rfl

/-- The seven data bits of a gamma byte for an in-range index. -/
theorem gammaLow_le_127 (m : Nat) (hm : m ≤ 255) :
    (isqrtLe (64516 * m ^ 5 / 255 ^ 5) + 1) / 2 ≤ 127 := by
  have hn : 64516 * m ^ 5 / 255 ^ 5 ≤ 64516 := by
    calc 64516 * m ^ 5 / 255 ^ 5 ≤ 64516 * 255 ^ 5 / 255 ^ 5 :=
          Nat.div_le_div_right (Nat.mul_le_mul_left _ (Nat.pow_le_pow_left hm 5))
      _ = 64516 := by norm_num
  have hs : isqrtLe (64516 * m ^ 5 / 255 ^ 5) ≤ 254 :=
    isqrtLe_le (by omega)
  omega

/-- Or-ing `0x80` onto a 7-bit value is addition. -/
theorem lor128 : ∀ m < 128, 128 ||| m = 128 + m := by decide!

/-- C4: every gamma table entry equals
`0x80 | ⌊127·(i/255)^2.5 + 1/2⌋`, the table is monotone on `0..255`, and
its endpoints are `0x80` and `0xFF`. -/
theorem gamma_table_formula_monotone_endpoints (i j : Nat) (hj : j ≤ 255) (hij : i < j) :
    gammaByte i = 0x80 ||| ⌊127 * ((i : ℝ) / 255) ^ (2.5 : ℝ) + 1 / 2⌋₊ ∧
    gammaByte i ≤ gammaByte j ∧
    gammaByte 0 = 0x80 ∧ gammaByte 255 = 0xFF := by
  refine ⟨gammaByte_formula i, ?_, by decide!, by decide!⟩
  have hi : i ≤ 255 := by omega
  have hmono : (isqrtLe (64516 * i ^ 5 / 255 ^ 5) + 1) / 2 ≤
      (isqrtLe (64516 * j ^ 5 / 255 ^ 5) + 1) / 2 := by
    refine Nat.div_le_div_right (Nat.succ_le_succ ?_)
    refine isqrtLe_mono (Nat.div_le_div_right (Nat.mul_le_mul_left _ ?_))
    exact Nat.pow_le_pow_left (by omega) 5
  unfold gammaByte
  rw [show (0x80 : Nat) = 128 from rfl]
  rw [lor128 _ (by have := gammaLow_le_127 i hi; omega),
    lor128 _ (by have := gammaLow_le_127 j hj; omega)]
  omega

/-- C4 witness: formula, monotonicity and endpoints at `i = 3`,
`j = 200`. -/
theorem gamma_table_formula_monotone_endpoints_witness :
    gammaByte 3 = 0x80 ||| ⌊127 * ((3 : ℝ) / 255) ^ (2.5 : ℝ) + 1 / 2⌋₊ ∧
    gammaByte 3 ≤ gammaByte 200 ∧
    gammaByte 0 = 0x80 ∧ gammaByte 255 = 0xFF :=
  gamma_table_formula_monotone_endpoints 3 200 (by norm_num) (by norm_num)

/-- C8: evaluation of `anim_color_chase` at the failing input. Starting
from a fresh 3-pixel strip, two chase steps with `Color(255, 0, 0)` raise
nothing, yet leave BOTH pixel 0 and pixel 1 holding the encoded color
record `[0x80, 0xFF, 0x80]` (pixel `start + chaseStep` is cleared and
immediately re-lit, while the previously lit pixel `start + chaseStep - 1`
is never turned off), so more than one pixel in the range holds the
color. -/
theorem chase_leaves_two_pixels_lit :
    Color.build 255 0 0 1 = .ok ⟨255, 0, 0⟩ ∧
    chaseTwice.2 = none ∧
    chaseTwice.1.buffer =
      [[128, 255, 128], [128, 255, 128], [128, 128, 128]] ∧
    [(128 : Nat), 255, 128] ≠ [(128 : Nat), 128, 128] := by
  refine ⟨by decide!, by decide!, by decide!, by decide!⟩

/-- C9: evaluation of `anim_larson_scanner` at the failing input. On a
fresh 6-pixel strip with `Color(255, 0, 0)`, `tail=2`, `fade=0.75` over
the whole strip, the first four steps raise nothing and leave the cursor
at 4, but the fifth step raises `IndexError`: the lit pixel is within
`tail` of the end, so `tl` is clamped to `end - larsonLast`, the guard
`larsonLast + tl <= end` holds with equality, and `setOff(end)` indexes
one past the buffer. -/
theorem larson_fifth_step_raises_index_error :
    Color.build 255 0 0 1 = .ok ⟨255, 0, 0⟩ ∧
    (larsonRun 4).2 = none ∧
    (larsonRun 4).1.larsonStep = 4 ∧
    (larsonRun 5).2 = some .indexError := by
  refine ⟨by decide!, by decide!, by decide!, by decide!⟩

/-- C5 counterexample: on a fresh 1-pixel BRG strip with master
brightness 1, writing `Color(10, 20, 30)` stores the record
`[0x81, 0x80, 0x80] = [gamma(30), gamma(10), gamma(20)]`, not the
record `[gamma(20), gamma(30), gamma(10)] = [0x80, 0x81, 0x80]` the
claim names. -/
theorem brg_write_record_differs_from_claimed :
    Color.build 10 20 30 1 = .ok ⟨10, 20, 30⟩ ∧
    (setPix (stripBRG 1) 0 ⟨10, 20, 30⟩).2 = none ∧
    (setPix (stripBRG 1) 0 ⟨10, 20, 30⟩).1.buffer = [[129, 128, 128]] ∧
    [[(129 : Nat), 128, 128]] ≠ [[gammaByte 20, gammaByte 30, gammaByte 10]] := by
  refine ⟨by decide!, by decide!, by decide!, by decide!⟩

/-- C6 counterexample: on a fresh 2-pixel strip, the range write
`strip[0:2] = [[255,0,0], [4,5]]` raises `ValueError` at the second,
wrong-arity element, but pixel 0 has already been rewritten: the buffer
is not left as it was before the call. -/
theorem slice_validation_failure_corrupts_buffer :
    (setItemSlice (mkStrip 2).1 0 (some 2) none
        [.triple [255, 0, 0], .triple [4, 5]]).2 = some .valueError ∧
    (setItemSlice (mkStrip 2).1 0 (some 2) none
        [.triple [255, 0, 0], .triple [4, 5]]).1.buffer =
      [[128, 255, 128], [128, 128, 128]] ∧
    (mkStrip 2).1.buffer = [[128, 128, 128], [128, 128, 128]] := by
  refine ⟨by decide!, by decide!, by decide!⟩

/-- C7 counterexample: on a fresh 2-pixel strip, index `-1` does not
raise `IndexError`: reading succeeds (wrapping to the last pixel) and
writing through it succeeds as well. -/
theorem negative_index_wraps_instead_of_raising :
    getItem (mkStrip 2).1 (-1) = .ok [128, 128, 128] ∧
    (setItemInt (mkStrip 2).1 (-1) (.triple [255, 0, 0])).2 = none ∧
    (setItemInt (mkStrip 2).1 (-1) (.triple [255, 0, 0])).1.buffer =
      [[128, 128, 128], [128, 255, 128]] := by
  refine ⟨by decide!, by decide!, by decide!⟩

end LPD8806
